import Mathlib

/-!
Verification development for the `r_wordcloud` placement engine
(`src/r_wordcloud.py`), a Python port of R's wordcloud layout algorithm.

The source is shallowly embedded over exact rationals: Python floats become
`ℚ` (the float literals `0.5` and `0.2` become `1/2` and `1/5`; the double
constants `math.pi` and `math.sqrt(0.5)` become their exact IEEE-754 values),
Python ints become `ℤ`, and fallible operations return `Except PyErr`.
External collaborators (PIL text measurement, the trigonometric library
functions and the pseudo-random stream) are passed in as explicit oracle
functions, so every theorem quantifies over all of their behaviours.
The unbounded `while True` spiral loop is given an explicit fuel parameter;
termination theorems show that sufficient fuel always exists, so no source
behaviour is lost.
-/

/-- Runtime errors the embedded Python code can raise.  `outOfFuel` is a
model artifact standing for "the fuel parameter ran out before the source
loop finished"; it corresponds to no Python exception. -/
inductive PyErr where
  | zeroDivision
  | indexError
  | valueError
  | outOfFuel
deriving DecidableEq, Repr

/-- Python `int(x)` on a real value: truncation toward zero. -/
def pyInt (q : ℚ) : ℤ :=
  if 0 ≤ q then ⌊q⌋ else ⌈q⌉

/-- Python list indexing `l[i]`: negative indices count from the end, and an
index out of range raises `IndexError`. -/
def pyIndex {α : Type} (l : List α) (i : ℤ) : Except PyErr α :=
  let j := if i < 0 then i + l.length else i
  if h : 0 ≤ j ∧ j.toNat < l.length then .ok (l.get ⟨j.toNat, h.2⟩)
  else .error .indexError

/-- Characters with descenders (source line 53: `TAILS = set("gjpqy")`). -/
def TAILS : List Char := ['g', 'j', 'p', 'q', 'y']

/-- Model of `_has_tails` (source lines 56-57):
`any(c in TAILS for c in word.lower())`. -/
def _has_tails (word : String) : Bool :=
  (word.toList.map Char.toLower).any (fun c => TAILS.contains c)

/-- Descender compensation applied to the measured height (source lines
230-231): `if _has_tails(word): th_px = int(th_px + th_px * 0.2)`. -/
def descender_adjust (word : String) (th : ℤ) : ℤ :=
  if _has_tails word then pyInt ((th : ℚ) + (th : ℚ) * (1/5)) else th

/-- Model of the `BREWER_PALETTES` dict (source lines 25-50), as an
association list in the source's insertion order. -/
def BREWER_PALETTES : List (String × List String) :=
  [("Dark2", ["#1B9E77", "#D95F02", "#7570B3", "#E7298A", "#66A61E", "#E6AB02", "#A6761D", "#666666"]),
   ("Set1", ["#E41A1C", "#377EB8", "#4DAF4A", "#984EA3", "#FF7F00", "#FFFF33", "#A65628", "#F781BF"]),
   ("Set2", ["#66C2A5", "#FC8D62", "#8DA0CB", "#E78AC3", "#A6D854", "#FFD92F", "#E5C494", "#B3B3B3"]),
   ("Set3", ["#8DD3C7", "#FFFFB3", "#BEBADA", "#FB8072", "#80B1D3", "#FDB462", "#B3DE69", "#FCCDE5"]),
   ("Accent", ["#7FC97F", "#BEAED4", "#FDC086", "#FFFF99", "#386CB0", "#F0027F", "#BF5B17", "#666666"]),
   ("Paired", ["#A6CEE3", "#1F78B4", "#B2DF8A", "#33A02C", "#FB9A99", "#E31A1C", "#FDBF6F", "#FF7F00"]),
   ("Pastel1", ["#FBB4AE", "#B3CDE3", "#CCEBC5", "#DECBE4", "#FED9A6", "#FFFFCC", "#E5D8BD", "#FDDAEC"]),
   ("Pastel2", ["#B3E2CD", "#FDCDAC", "#CBD5E8", "#F4CAE4", "#E6F5C9", "#FFF2AE", "#F1E2CC", "#CCCCCC"]),
   ("Blues", ["#F7FBFF", "#DEEBF7", "#C6DBEF", "#9ECAE1", "#6BAED6", "#4292C6", "#2171B5", "#084594"]),
   ("Greens", ["#F7FCF5", "#E5F5E0", "#C7E9C0", "#A1D99B", "#74C476", "#41AB5D", "#238B45", "#005A32"]),
   ("Oranges", ["#FFF5EB", "#FEE6CE", "#FDD0A2", "#FDAE6B", "#FD8D3C", "#F16913", "#D94801", "#8C2D04"]),
   ("Reds", ["#FFF5F0", "#FEE0D2", "#FCBBA1", "#FC9272", "#FB6A4A", "#EF3B2C", "#CB181D", "#99000D"]),
   ("Purples", ["#FCFBFD", "#EFEDF5", "#DADAEB", "#BCBDDC", "#9E9AC8", "#807DBA", "#6A51A3", "#4A1486"]),
   ("Greys", ["#FFFFFF", "#F0F0F0", "#D9D9D9", "#BDBDBD", "#969696", "#737373", "#525252", "#252525"]),
   ("BuGn", ["#F7FCFD", "#E5F5F9", "#CCECE6", "#99D8C9", "#66C2A4", "#41AE76", "#238B45", "#005824"]),
   ("BuPu", ["#F7FCFD", "#E0ECF4", "#BFD3E6", "#9EBCDA", "#8C96C6", "#8C6BB1", "#88419D", "#6E016B"]),
   ("YlOrRd", ["#FFFFCC", "#FFEDA0", "#FED976", "#FEB24C", "#FD8D3C", "#FC4E2A", "#E31A1C", "#B10026"]),
   ("YlGnBu", ["#FFFFD9", "#EDF8B1", "#C7E9B4", "#7FCDBB", "#41B6C4", "#1D91C0", "#225EA8", "#0C2C84"]),
   ("RdYlGn", ["#D73027", "#F46D43", "#FDAE61", "#FEE08B", "#D9EF8B", "#A6D96A", "#66BD63", "#1A9850"]),
   ("RdBu", ["#B2182B", "#D6604D", "#F4A582", "#FDDBC7", "#D1E5F0", "#92C5DE", "#4393C3", "#2166AC"]),
   ("Spectral", ["#D53E4F", "#F46D43", "#FDAE61", "#FEE08B", "#E6F598", "#ABDDA4", "#66C2A5", "#3288BD"])]

/-- Names the source treats as sequential palettes (source lines 71-72). -/
def sequentialPalettes : List String :=
  ["Blues", "Greens", "Oranges", "Reds", "Purples", "Greys",
   "BuGn", "BuPu", "YlOrRd", "YlGnBu"]

/-- Fallback palette returned for unknown names (source line 77). -/
def fallbackColors : List String :=
  ["#1B9E77", "#D95F02", "#7570B3", "#E7298A", "#66A61E", "#E6AB02"]

/-- Model of the `Union[str, list]` palette argument. -/
inductive PaletteArg where
  | name (s : String)
  | list (l : List String)

/-- Model of `_get_palette_colors` (source lines 60-77). -/
def _get_palette_colors (palette : PaletteArg) (skip_light : ℤ) : List String :=
  match palette with
  | .list l => l
  | .name s =>
    match BREWER_PALETTES.lookup s with
    | some colors =>
      if sequentialPalettes.contains s && decide (0 < skip_light) then
        colors.drop skip_light.toNat
      else colors
    | none => fallbackColors

/-- Normalized-coordinate bounding box `(x, y, w, h)` with `(x, y)` the
top-left corner, as appended to the `boxes` list at source line 273. -/
structure Box where
  x : ℚ
  y : ℚ
  w : ℚ
  h : ℚ
deriving DecidableEq, Repr

/-- Per-box body of the `_is_overlap` loop (source lines 107-115): the
directed strict projection test of candidate 1 against placed box 2. -/
def overlapTest (x1 y1 w1 h1 x2 y2 w2 h2 : ℚ) : Bool :=
  (if x1 < x2 then decide (x2 < x1 + w1) else decide (x1 < x2 + w2)) &&
  (if y1 < y2 then decide (y2 < y1 + h1) else decide (y1 < y2 + h2))

/-- Model of `_is_overlap` (source lines 101-119): scan the placed boxes and
return `true` on the first detected overlap. -/
def _is_overlap (x1 y1 w1 h1 : ℚ) : List Box → Bool
  | [] => false
  | b :: rest =>
    if overlapTest x1 y1 w1 h1 b.x b.y b.w b.h then true
    else _is_overlap x1 y1 w1 h1 rest

/-- Exact rational value of the IEEE-754 double `math.pi`. -/
def PY_PI : ℚ := 884279719003555 / 281474976710656

/-- Exact rational value of the IEEE-754 double `math.sqrt(0.5)`
(source line 278). -/
def SQRT_HALF : ℚ := 6369051672525773 / 9007199254740992

/-- Oracles standing for the external collaborators of the engine: the
trigonometric library functions and the pseudo-random draws consumed per
word index (`random.uniform(0, 2*pi)`, `random.random()` for the rotation
trial, and the `random.randint` draw used in random-color mode). -/
structure Oracles where
  cos : ℚ → ℚ
  sin : ℚ → ℚ
  uniformAngle : Nat → ℚ
  randFloat : Nat → ℚ
  randInt : Nat → Nat

/-- Configuration parameters of `wordcloud` (source lines 122-139) that the
layout core consults.  Rendering-only parameters (background color, font
path, seed) are external to the embedding. -/
structure Config where
  width : ℤ
  height : ℤ
  scale : ℚ × ℚ
  min_freq : ℚ
  max_words : Nat
  random_order : Bool
  random_color : Bool
  rot_per : ℚ
  palette : PaletteArg
  base_font_size : ℚ
  theta_step : ℚ
  r_step : ℚ
  margin : ℤ

/-- Model of the spiral placement loop `while True: ...` (source lines
243-283) for one word, with explicit fuel.  Returns `none` when the fuel
runs out (a model artifact), `some none` when the radius cutoff drops the
word, and `some (some (x1, y1, box))` on successful placement. -/
def spiralSearch (o : Oracles) (theta_step r_step wid ht : ℚ) (boxes : List Box) :
    ℚ → ℚ → Nat → Option (Option (ℚ × ℚ × Box))
  | _, _, 0 => none
  | r, theta, fuel + 1 =>
    let x1 := 1/2 + r * o.cos theta
    let y1 := 1/2 + r * o.sin theta
    let bx := x1 - 1/2 * wid
    let byy := y1 - 1/2 * ht
    if 0 < bx ∧ 0 < byy ∧ bx + wid < 1 ∧ byy + ht < 1 ∧
        _is_overlap bx byy wid ht boxes = false then
      some (some (x1, y1, ⟨bx, byy, wid, ht⟩))
    else if SQRT_HALF < r then
      some none
    else
      spiralSearch o theta_step r_step wid ht boxes
        (r + r_step * theta_step / (2 * PY_PI)) (theta + theta_step) fuel

/-- Frequency-mode color selection (source lines 263-266):
`ci = min(int(math.ceil(nc * nf)), nc) - 1; ci = max(0, ci);
cc = rgb_colors[nc - 1 - ci]`. -/
def freqColorPick (colors : List String) (nf : ℚ) : Except PyErr String :=
  let nc : ℤ := colors.length
  let ci : ℤ := max 0 (min ⌈(nc : ℚ) * nf⌉ nc - 1)
  pyIndex colors (nc - 1 - ci)

/-- Random-mode color selection (source line 261):
`rgb_colors[random.randint(0, nc - 1)]`; `randint(0, -1)` raises
`ValueError`.  The oracle draw is reduced modulo `nc` so that every possible
outcome of the uniform draw is covered. -/
def randomColorPick (colors : List String) (k : Nat) : Except PyErr String :=
  if colors.length = 0 then .error .valueError
  else pyIndex colors ((k % colors.length : Nat) : ℤ)

/-- One entry of the `placed` list (source line 272), minus the font handle,
which is a rendering resource. -/
structure Placement where
  word : String
  px : ℤ
  py : ℤ
  rotated : Bool
  color : String
deriving DecidableEq, Repr

/-- Per-word body of the placement loop (source lines 220-283): font sizing,
measurement, margins, descender compensation, normalization, rotation,
spiral search and color assignment.  Returns `.ok none` when the word is
dropped. -/
def placeWord (cfg : Config) (o : Oracles) (measure : String → ℤ → ℤ × ℤ)
    (colors : List String) (fuel : Nat) (i : Nat) (word : String) (nf cex : ℚ)
    (boxes : List Box) : Except PyErr (Option (Placement × Box)) :=
  if cfg.width = 0 ∨ cfg.height = 0 then .error .zeroDivision
  else
    let fontsize := max 1 (pyInt (cfg.base_font_size * cex))
    let m := measure word fontsize
    let tw := m.1 + cfg.margin * 2
    let th := descender_adjust word (m.2 + cfg.margin * 2)
    let wid0 : ℚ := (tw : ℚ) / (cfg.width : ℚ)
    let ht0 : ℚ := (th : ℚ) / (cfg.height : ℚ)
    let rotW := decide (o.randFloat i < cfg.rot_per)
    let wid := if rotW then ht0 else wid0
    let ht := if rotW then wid0 else ht0
    match spiralSearch o cfg.theta_step cfg.r_step wid ht boxes 0 (o.uniformAngle i) fuel with
    | none => .error .outOfFuel
    | some none => .ok none
    | some (some (x1, y1, b)) =>
      match (if cfg.random_color then randomColorPick colors (o.randInt i)
             else freqColorPick colors nf) with
      | .error e => .error e
      | .ok c =>
        .ok (some (⟨word, pyInt (x1 * (cfg.width : ℚ)), pyInt (y1 * (cfg.height : ℚ)), rotW, c⟩, b))

/-- Iteration of the placement loop over the word list (source line 220),
threading the cumulative `placed` and `boxes` lists. -/
def placeLoop (cfg : Config) (o : Oracles) (measure : String → ℤ → ℤ × ℤ)
    (colors : List String) (fuel : Nat) :
    List (String × ℚ × ℚ) → Nat → List Placement → List Box →
    Except PyErr (List Placement × List Box)
  | [], _, placed, boxes => .ok (placed, boxes)
  | (word, nf, cex) :: rest, i, placed, boxes =>
    match placeWord cfg o measure colors fuel i word nf cex boxes with
    | .error e => .error e
    | .ok none => placeLoop cfg o measure colors fuel rest (i + 1) placed boxes
    | .ok (some (pl, b)) =>
      placeLoop cfg o measure colors fuel rest (i + 1) (placed ++ [pl]) (boxes ++ [b])

/-- Comparator of `words_freqs.sort(key=lambda x: x[1], reverse=True)`
(source line 176): descending by frequency. -/
def freqDescLE (a b : String × ℚ) : Bool := b.2 ≤ a.2

/-- Filtering, stable descending sort and truncation of the input
frequencies (source lines 175-177).  Python's `list.sort` is a stable sort,
faithfully modelled by `List.mergeSort`. -/
def filterSortWords (frequencies : List (String × ℚ)) (min_freq : ℚ)
    (max_words : Nat) : List (String × ℚ) :=
  (((frequencies.filter (fun p => min_freq ≤ p.2)).mergeSort freqDescLE).take max_words)

/-- Python `max` over a list of frequencies (source line 190); the source
only calls it on a nonempty list. -/
def pyMaxList : List ℚ → ℚ
  | [] => 0
  | f :: rest => rest.foldl (fun a b => if a < b then b else a) f

/-- Model of the layout core of `wordcloud` (source lines 166-284): palette
resolution, filtering/ordering, normalization, size mapping and the
placement loop.  Returns the `placed` and `boxes` lists that drive
rendering.  The `shuffle` oracle stands for `random.shuffle`, used only
when `random_order` is set. -/
def wordcloudModel (cfg : Config) (o : Oracles) (measure : String → ℤ → ℤ × ℤ)
    (shuffle : List (String × ℚ) → List (String × ℚ))
    (frequencies : List (String × ℚ)) (fuel : Nat) :
    Except PyErr (List Placement × List Box) :=
  let colors := _get_palette_colors cfg.palette 2
  let wf0 := filterSortWords frequencies cfg.min_freq cfg.max_words
  if wf0.isEmpty then .ok ([], [])
  else
    let wf := if cfg.random_order then shuffle wf0 else wf0
    let freqs := wf.map (fun p => p.2)
    let max_freq := pyMaxList freqs
    if max_freq = 0 then .error .zeroDivision
    else
      let normed := freqs.map (fun f => f / max_freq)
      let cexs := normed.map (fun nf => (cfg.scale.1 - cfg.scale.2) * nf + cfg.scale.2)
      placeLoop cfg o measure colors fuel
        ((wf.map (fun p => p.1)).zip (normed.zip cexs)) 0 [] []

/-- ScaleFactor ("cex") computation (source line 195). -/
def cexOf (scale : ℚ × ℚ) (nf : ℚ) : ℚ :=
  (scale.1 - scale.2) * nf + scale.2

/-- Frequency normalization (source line 191). -/
def normedOf (max_freq f : ℚ) : ℚ := f / max_freq

/-- Boxes recorded by a layout run (empty when the run raised). -/
def recordedBoxes (r : Except PyErr (List Placement × List Box)) : List Box :=
  match r with
  | .ok pr => pr.2
  | .error _ => []

/-- Observer: did the run complete without raising? -/
def isOkB {α : Type} (r : Except PyErr α) : Bool :=
  match r with
  | .ok _ => true
  | .error _ => false

/-- Observer: number of placements recorded by a run. -/
def placedCount (r : Except PyErr (List Placement × List Box)) : Nat :=
  match r with
  | .ok pr => pr.1.length
  | .error _ => 0

/-- Strict containment of a placed box in the open unit square, as enforced
by the acceptance test at source lines 255-256. -/
def inUnitSquare (b : Box) : Prop :=
  0 < b.x ∧ 0 < b.y ∧ b.x + b.w < 1 ∧ b.y + b.h < 1

/-- Directed no-overlap of a later box `b` (candidate) against an earlier
box `a` (placed), exactly the test the source runs at line 257. -/
def noOv (a b : Box) : Prop :=
  overlapTest b.x b.y b.w b.h a.x a.y a.w a.h = false

/-- Layout-run invariant carried through the placement loop. -/
def layoutInv (r : Except PyErr (List Placement × List Box)) : Prop :=
  (∀ b ∈ recordedBoxes r, inUnitSquare b) ∧
  (∀ b ∈ recordedBoxes r, 0 < b.w ∧ 0 < b.h) ∧
  (recordedBoxes r).Pairwise noOv

lemma is_overlap_iff (x1 y1 w1 h1 : ℚ) (bs : List Box) :
    _is_overlap x1 y1 w1 h1 bs = true ↔
      ∃ b ∈ bs, overlapTest x1 y1 w1 h1 b.x b.y b.w b.h = true := by
  induction bs with
  | nil => simp [_is_overlap]
  | cons b rest ih =>
    cases hov : overlapTest x1 y1 w1 h1 b.x b.y b.w b.h <;>
      simp [_is_overlap, hov, ih]

lemma is_overlap_eq_false_iff (x1 y1 w1 h1 : ℚ) (bs : List Box) :
    _is_overlap x1 y1 w1 h1 bs = false ↔
      ∀ b ∈ bs, overlapTest x1 y1 w1 h1 b.x b.y b.w b.h = false := by
  induction bs with
  | nil => simp [_is_overlap]
  | cons b rest ih =>
    cases hov : overlapTest x1 y1 w1 h1 b.x b.y b.w b.h <;>
      simp [_is_overlap, hov, ih]

lemma overlapTest_iff_ifProp (x1 y1 w1 h1 x2 y2 w2 h2 : ℚ) :
    overlapTest x1 y1 w1 h1 x2 y2 w2 h2 = true ↔
      ((if x1 < x2 then x1 + w1 > x2 else x2 + w2 > x1) ∧
       (if y1 < y2 then y1 + h1 > y2 else y2 + h2 > y1)) := by
  unfold overlapTest
  split_ifs <;> simp [gt_iff_lt]

lemma overlapTest_eq_true_iff (x1 y1 w1 h1 x2 y2 w2 h2 : ℚ)
    (hw1 : 0 < w1) (hh1 : 0 < h1) (hw2 : 0 < w2) (hh2 : 0 < h2) :
    overlapTest x1 y1 w1 h1 x2 y2 w2 h2 = true ↔
      (x1 < x2 + w2 ∧ x2 < x1 + w1 ∧ y1 < y2 + h2 ∧ y2 < y1 + h1) := by
  rw [overlapTest_iff_ifProp]
  constructor
  · rintro ⟨hx, hy⟩
    constructor
    · by_cases h : x1 < x2
      · linarith
      · rw [if_neg h] at hx; linarith
    constructor
    · by_cases h : x1 < x2
      · rw [if_pos h] at hx; linarith
      · linarith
    constructor
    · by_cases h : y1 < y2
      · linarith
      · rw [if_neg h] at hy; linarith
    · by_cases h : y1 < y2
      · rw [if_pos h] at hy; linarith
      · linarith
  · rintro ⟨a, b, c, d⟩
    constructor
    · split_ifs <;> linarith
    · split_ifs <;> linarith

lemma overlapTest_eq_false_symm (x1 y1 w1 h1 x2 y2 w2 h2 : ℚ)
    (hw1 : 0 < w1) (hh1 : 0 < h1) (hw2 : 0 < w2) (hh2 : 0 < h2)
    (h : overlapTest x1 y1 w1 h1 x2 y2 w2 h2 = false) :
    overlapTest x2 y2 w2 h2 x1 y1 w1 h1 = false := by
  cases hov : overlapTest x2 y2 w2 h2 x1 y1 w1 h1
  · rfl
  · have hp := (overlapTest_eq_true_iff x2 y2 w2 h2 x1 y1 w1 h1 hw2 hh2 hw1 hh1).mp hov
    have hq : overlapTest x1 y1 w1 h1 x2 y2 w2 h2 = true :=
      (overlapTest_eq_true_iff x1 y1 w1 h1 x2 y2 w2 h2 hw1 hh1 hw2 hh2).mpr
        ⟨hp.2.1, hp.1, hp.2.2.2, hp.2.2.1⟩
    simp [h] at hq

lemma spiralSearch_placed (o : Oracles) (ts rs wid ht : ℚ) (boxes : List Box) :
    ∀ (fuel : Nat) (r theta x1 y1 : ℚ) (b : Box),
      spiralSearch o ts rs wid ht boxes r theta fuel = some (some (x1, y1, b)) →
      (0 < b.x ∧ 0 < b.y ∧ b.x + b.w < 1 ∧ b.y + b.h < 1) ∧
      b.w = wid ∧ b.h = ht ∧
      _is_overlap b.x b.y b.w b.h boxes = false := by
  intro fuel
  induction fuel with
  | zero =>
    intro r theta x1 y1 b h
    simp [spiralSearch] at h
  | succ n ih =>
    intro r theta x1 y1 b h
    rw [spiralSearch] at h
    split at h
    · rename_i hcond
      simp only [Option.some.injEq, Prod.mk.injEq] at h
      obtain ⟨-, -, hb⟩ := h
      subst hb
      exact ⟨⟨hcond.1, hcond.2.1, hcond.2.2.1, hcond.2.2.2.1⟩, rfl, rfl, hcond.2.2.2.2⟩
    · split at h
      · simp at h
      · exact ih _ _ _ _ _ h

lemma descender_adjust_pos (word : String) (th : ℤ) (h : 0 < th) :
    0 < descender_adjust word th := by
  unfold descender_adjust
  split
  · have hq : (0:ℚ) ≤ (th : ℚ) + (th : ℚ) * (1/5) := by
      have : (0:ℚ) < (th : ℚ) := by exact_mod_cast h
      linarith
    unfold pyInt
    rw [if_pos hq]
    have h1 : (1:ℚ) ≤ (th : ℚ) + (th : ℚ) * (1/5) := by
      have : (1:ℚ) ≤ (th : ℚ) := by exact_mod_cast h
      linarith
    have := Int.le_floor.mpr (by exact_mod_cast h1 : ((1:ℤ) : ℚ) ≤ (th : ℚ) + (th : ℚ) * (1/5))
    omega
  · exact h

lemma placeWord_placed (cfg : Config) (o : Oracles) (measure : String → ℤ → ℤ × ℤ)
    (colors : List String) (fuel i : Nat) (word : String) (nf cex : ℚ)
    (boxes : List Box) (pl : Placement) (b : Box)
    (hm : 1 ≤ cfg.margin)
    (hmeas : ∀ w s, 0 ≤ (measure w s).1 ∧ 0 ≤ (measure w s).2)
    (hw : 0 < cfg.width) (hh : 0 < cfg.height)
    (h : placeWord cfg o measure colors fuel i word nf cex boxes = .ok (some (pl, b))) :
    inUnitSquare b ∧ (0 < b.w ∧ 0 < b.h) ∧
    _is_overlap b.x b.y b.w b.h boxes = false := by
  unfold placeWord at h
  rw [if_neg (by push_neg; exact ⟨hw.ne', hh.ne'⟩)] at h
  simp only [] at h
  split at h
  · exact absurd h (by simp)
  · exact absurd h (by simp)
  · rename_i x1 y1 b' hspiral
    split at h
    · exact absurd h (by simp)
    · simp only [Except.ok.injEq, Option.some.injEq, Prod.mk.injEq] at h
      obtain ⟨-, hb⟩ := h
      subst hb
      obtain ⟨hbox, hbw, hbh, hov⟩ :=
        spiralSearch_placed o cfg.theta_step cfg.r_step _ _ boxes fuel 0
          (o.uniformAngle i) x1 y1 b' hspiral
      have hwid0 : (0:ℚ) <
          ((measure word (max 1 (pyInt (cfg.base_font_size * cex)))).1 + cfg.margin * 2 : ℤ) /
            (cfg.width : ℚ) := by
        apply div_pos
        · have := (hmeas word (max 1 (pyInt (cfg.base_font_size * cex)))).1
          have : (0:ℤ) < (measure word (max 1 (pyInt (cfg.base_font_size * cex)))).1 + cfg.margin * 2 := by omega
          exact_mod_cast this
        · exact_mod_cast hw
      have hht0 : (0:ℚ) <
          (descender_adjust word
            ((measure word (max 1 (pyInt (cfg.base_font_size * cex)))).2 + cfg.margin * 2) : ℤ) /
            (cfg.height : ℚ) := by
        apply div_pos
        · have := (hmeas word (max 1 (pyInt (cfg.base_font_size * cex)))).2
          have hpos : (0:ℤ) <
              (measure word (max 1 (pyInt (cfg.base_font_size * cex)))).2 + cfg.margin * 2 := by omega
          have := descender_adjust_pos word _ hpos
          exact_mod_cast this
        · exact_mod_cast hh
      refine ⟨hbox, ⟨?_, ?_⟩, hov⟩
      · rw [hbw]; split <;> assumption
      · rw [hbh]; split <;> assumption

lemma placeLoop_layoutInv (cfg : Config) (o : Oracles) (measure : String → ℤ → ℤ × ℤ)
    (colors : List String) (fuel : Nat)
    (hm : 1 ≤ cfg.margin)
    (hmeas : ∀ w s, 0 ≤ (measure w s).1 ∧ 0 ≤ (measure w s).2)
    (hw : 0 < cfg.width) (hh : 0 < cfg.height) :
    ∀ (items : List (String × ℚ × ℚ)) (i : Nat) (placed : List Placement) (boxes : List Box),
      (∀ b ∈ boxes, inUnitSquare b) → (∀ b ∈ boxes, 0 < b.w ∧ 0 < b.h) →
      boxes.Pairwise noOv →
      layoutInv (placeLoop cfg o measure colors fuel items i placed boxes) := by
  intro items
  induction items with
  | nil =>
    intro i placed boxes h1 h2 h3
    exact ⟨by simpa [placeLoop, recordedBoxes] using h1,
           by simpa [placeLoop, recordedBoxes] using h2,
           by simpa [placeLoop, recordedBoxes] using h3⟩
  | cons it rest ih =>
    intro i placed boxes h1 h2 h3
    obtain ⟨word, nf, cex⟩ := it
    cases hpw : placeWord cfg o measure colors fuel i word nf cex boxes with
    | error e =>
      simp [placeLoop, hpw, layoutInv, recordedBoxes]
    | ok res =>
      cases res with
      | none =>
        simpa [placeLoop, hpw] using ih (i + 1) placed boxes h1 h2 h3
      | some prb =>
        obtain ⟨pl, b⟩ := prb
        obtain ⟨hin, hdim, hov⟩ :=
          placeWord_placed cfg o measure colors fuel i word nf cex boxes pl b
            hm hmeas hw hh hpw
        have h1' : ∀ bb ∈ boxes ++ [b], inUnitSquare bb := by
          intro bb hbb
          rcases List.mem_append.mp hbb with hmem | hmem
          · exact h1 bb hmem
          · rw [List.mem_singleton] at hmem; subst hmem; exact hin
        have h2' : ∀ bb ∈ boxes ++ [b], 0 < bb.w ∧ 0 < bb.h := by
          intro bb hbb
          rcases List.mem_append.mp hbb with hmem | hmem
          · exact h2 bb hmem
          · rw [List.mem_singleton] at hmem; subst hmem; exact hdim
        have h3' : (boxes ++ [b]).Pairwise noOv := by
          rw [List.pairwise_append]
          refine ⟨h3, List.pairwise_singleton _ _, ?_⟩
          intro a ha c hc
          rw [List.mem_singleton] at hc; subst hc
          exact (is_overlap_eq_false_iff _ _ _ _ boxes).mp hov a ha
        simpa [placeLoop, hpw] using ih (i + 1) (placed ++ [pl]) (boxes ++ [b]) h1' h2' h3'

lemma wordcloudModel_layoutInv (cfg : Config) (o : Oracles)
    (measure : String → ℤ → ℤ × ℤ) (shuffle : List (String × ℚ) → List (String × ℚ))
    (frequencies : List (String × ℚ)) (fuel : Nat)
    (hm : 1 ≤ cfg.margin)
    (hmeas : ∀ w s, 0 ≤ (measure w s).1 ∧ 0 ≤ (measure w s).2)
    (hw : 0 < cfg.width) (hh : 0 < cfg.height) :
    layoutInv (wordcloudModel cfg o measure shuffle frequencies fuel) := by
  unfold wordcloudModel
  simp only []
  split
  · exact ⟨by simp [recordedBoxes], by simp [recordedBoxes], by simp [recordedBoxes]⟩
  · split <;> split
    all_goals
      first
        | exact placeLoop_layoutInv cfg o measure _ fuel hm hmeas hw hh _ 0 [] []
            (by simp) (by simp) (by simp)
        | exact ⟨by simp [recordedBoxes], by simp [recordedBoxes], by simp [recordedBoxes]⟩

/-- C1: for every layout run of `wordcloud` (any configuration with a
positive canvas, a margin of at least one pixel and nonnegative text
measurements, any oracle behaviour, any input), every pair of boxes
recorded in the output passes the strict-inequality non-overlap test in
both orientations, and every recorded box lies strictly inside the unit
square: `0 < x`, `0 < y`, `x + w < 1` and `y + h < 1`. -/
theorem wordcloud_boxes_no_overlap_inbounds (cfg : Config) (o : Oracles)
    (measure : String → ℤ → ℤ × ℤ) (shuffle : List (String × ℚ) → List (String × ℚ))
    (frequencies : List (String × ℚ)) (fuel : Nat)
    (hm : 1 ≤ cfg.margin)
    (hmeas : ∀ w s, 0 ≤ (measure w s).1 ∧ 0 ≤ (measure w s).2)
    (hw : 0 < cfg.width) (hh : 0 < cfg.height) :
    (∀ b ∈ recordedBoxes (wordcloudModel cfg o measure shuffle frequencies fuel),
      inUnitSquare b) ∧
    (recordedBoxes (wordcloudModel cfg o measure shuffle frequencies fuel)).Pairwise
      (fun a b => overlapTest b.x b.y b.w b.h a.x a.y a.w a.h = false ∧
                  overlapTest a.x a.y a.w a.h b.x b.y b.w b.h = false) := by
  obtain ⟨h1, h2, h3⟩ :=
    wordcloudModel_layoutInv cfg o measure shuffle frequencies fuel hm hmeas hw hh
  refine ⟨h1, h3.imp_of_mem ?_⟩
  intro a b ha hb hr
  have hda := h2 a ha
  have hdb := h2 b hb
  exact ⟨hr, overlapTest_eq_false_symm _ _ _ _ _ _ _ _ hdb.1 hdb.2 hda.1 hda.2 hr⟩

/-- Concrete configuration used by witnesses: a 100x100 canvas, scale
(4, 1/2), no randomness-driven options, a one-color list palette. -/
def cfgW : Config :=
  ⟨100, 100, (4, 1/2), 1, 200, false, false, 0, .list ["#123456"], 16, 1/10, 1/20, 2⟩

/-- Concrete oracle bundle used by witnesses. -/
def oracleW : Oracles :=
  ⟨fun _ => 1, fun _ => 0, fun _ => 0, fun _ => 1, fun _ => 0⟩

/-- Concrete measurement oracle used by witnesses: every word measures
6x6 pixels. -/
def measureW : String → ℤ → ℤ × ℤ := fun _ _ => (6, 6)

/-- Witness for C1 at a concrete run. -/
theorem wordcloud_boxes_no_overlap_inbounds_witness :
    ((1:ℤ) ≤ cfgW.margin ∧ (∀ w s, 0 ≤ (measureW w s).1 ∧ 0 ≤ (measureW w s).2) ∧
      (0:ℤ) < cfgW.width ∧ (0:ℤ) < cfgW.height) ∧
    ((∀ b ∈ recordedBoxes (wordcloudModel cfgW oracleW measureW id [("a", 2)] 5),
        inUnitSquare b) ∧
      (recordedBoxes (wordcloudModel cfgW oracleW measureW id [("a", 2)] 5)).Pairwise
        (fun a b => overlapTest b.x b.y b.w b.h a.x a.y a.w a.h = false ∧
                    overlapTest a.x a.y a.w a.h b.x b.y b.w b.h = false)) :=
  ⟨⟨by decide, fun w s => ⟨by norm_num [measureW], by norm_num [measureW]⟩, by decide, by decide⟩,
   wordcloud_boxes_no_overlap_inbounds cfgW oracleW measureW id [("a", 2)] 5
     (by decide) (fun w s => ⟨by norm_num [measureW], by norm_num [measureW]⟩) (by decide) (by decide)⟩

/-- C2: `_is_overlap` returns `true` iff some rectangle in the list
overlaps the candidate under the strict projection test of the source
(`x1 < x2` branch requires `x1 + w1 > x2`, else `x2 + w2 > x1`, and
symmetrically on the Y axis); moreover a rectangle that merely touches the
candidate's right edge (`x2 = x1 + w1`) never counts as overlapping. -/
theorem is_overlap_spec (x1 y1 w1 h1 : ℚ) (boxes : List Box) :
    (_is_overlap x1 y1 w1 h1 boxes = true ↔
      ∃ b ∈ boxes,
        (if x1 < b.x then x1 + w1 > b.x else b.x + b.w > x1) ∧
        (if y1 < b.y then y1 + h1 > b.y else b.y + b.h > y1)) ∧
    (0 < w1 → ∀ y2 w2 h2 : ℚ, overlapTest x1 y1 w1 h1 (x1 + w1) y2 w2 h2 = false) := by
  constructor
  · rw [is_overlap_iff]
    exact exists_congr fun b =>
      and_congr_right fun _ => overlapTest_iff_ifProp x1 y1 w1 h1 b.x b.y b.w b.h
  · intro hw y2 w2 h2
    unfold overlapTest
    rw [if_pos (by linarith : x1 < x1 + w1)]
    simp

/-- Witness for C2 at a concrete candidate and box list. -/
theorem is_overlap_spec_witness :
    ((0:ℚ) < 1) ∧
    ((_is_overlap 0 0 1 1 [⟨1/2, 0, 1, 1⟩] = true ↔
        ∃ b ∈ [(⟨1/2, 0, 1, 1⟩ : Box)],
          (if (0:ℚ) < b.x then 0 + 1 > b.x else b.x + b.w > 0) ∧
          (if (0:ℚ) < b.y then 0 + 1 > b.y else b.y + b.h > 0)) ∧
      (∀ y2 w2 h2 : ℚ, overlapTest 0 0 1 1 (0 + 1) y2 w2 h2 = false)) :=
  ⟨by norm_num,
   ⟨(is_overlap_spec 0 0 1 1 [⟨1/2, 0, 1, 1⟩]).1,
    (is_overlap_spec 0 0 1 1 [⟨1/2, 0, 1, 1⟩]).2 (by norm_num)⟩⟩

lemma freqDescLE_trans : ∀ (a b c : String × ℚ),
    freqDescLE a b → freqDescLE b c → freqDescLE a c := by
  intro a b c hab hbc
  simp only [freqDescLE, decide_eq_true_eq] at *
  exact le_trans hbc hab

lemma freqDescLE_total : ∀ (a b : String × ℚ), freqDescLE a b || freqDescLE b a := by
  intro a b
  simp only [freqDescLE, Bool.or_eq_true, decide_eq_true_eq]
  exact le_total b.2 a.2

/-- C3: before placement the engine keeps exactly the entries whose
frequency reaches the configured minimum, orders them by frequency
descending, truncates to at most the configured maximum count, and keeps
ties in the stable order of the input: for every frequency value `q`, the
`q`-entries of the placement order are an initial segment of the
`q`-entries of the filtered input, in the same order. -/
theorem filter_sort_truncate_spec (frequencies : List (String × ℚ)) (min_freq : ℚ)
    (max_words : Nat) :
    (∀ p ∈ filterSortWords frequencies min_freq max_words, min_freq ≤ p.2) ∧
    (filterSortWords frequencies min_freq max_words).Pairwise (fun a b => b.2 ≤ a.2) ∧
    (filterSortWords frequencies min_freq max_words).length ≤ max_words ∧
    List.Subperm (filterSortWords frequencies min_freq max_words)
      (frequencies.filter (fun p => min_freq ≤ p.2)) ∧
    (∀ q : ℚ,
      (filterSortWords frequencies min_freq max_words).filter (fun p => p.2 = q) <+:
        (frequencies.filter (fun p => min_freq ≤ p.2)).filter (fun p => p.2 = q)) := by
  have hsorted :
      ((frequencies.filter (fun p => min_freq ≤ p.2)).mergeSort freqDescLE).Pairwise
        (fun a b => freqDescLE a b = true) :=
    List.sorted_mergeSort freqDescLE_trans freqDescLE_total _
  have hperm :
      List.Perm ((frequencies.filter (fun p => min_freq ≤ p.2)).mergeSort freqDescLE)
        (frequencies.filter (fun p => min_freq ≤ p.2)) :=
    List.mergeSort_perm _ _
  refine ⟨?_, ?_, ?_, ?_, ?_⟩
  · intro p hp
    have h1 : p ∈ (frequencies.filter (fun p => min_freq ≤ p.2)).mergeSort freqDescLE :=
      List.mem_of_mem_take hp
    have h2 := List.mem_filter.mp (List.mem_mergeSort.mp h1)
    simpa using h2.2
  · have hsub := List.take_sublist max_words
      ((frequencies.filter (fun p => min_freq ≤ p.2)).mergeSort freqDescLE)
    exact (hsorted.sublist hsub).imp (fun h => by simpa [freqDescLE] using h)
  · exact List.length_take_le _ _
  · exact (List.take_sublist _ _).subperm.trans hperm.subperm
  · intro q
    have hsub1 :
        List.Sublist
          ((frequencies.filter (fun p => min_freq ≤ p.2)).filter (fun p => p.2 = q))
          (frequencies.filter (fun p => min_freq ≤ p.2)) :=
      List.filter_sublist _
    have hpw :
        ((frequencies.filter (fun p => min_freq ≤ p.2)).filter
          (fun p => p.2 = q)).Pairwise (fun a b => freqDescLE a b = true) := by
      apply List.pairwise_of_forall_mem_list
      intro a ha b hb
      have ha' := (List.mem_filter.mp ha).2
      have hb' := (List.mem_filter.mp hb).2
      simp only [decide_eq_true_eq] at ha' hb'
      simp [freqDescLE, ha', hb']
    have hsub2 :
        List.Sublist
          ((frequencies.filter (fun p => min_freq ≤ p.2)).filter (fun p => p.2 = q))
          ((frequencies.filter (fun p => min_freq ≤ p.2)).mergeSort freqDescLE) :=
      List.sublist_mergeSort freqDescLE_trans freqDescLE_total hpw hsub1
    have hid :
        ((frequencies.filter (fun p => min_freq ≤ p.2)).filter
            (fun p => p.2 = q)).filter (fun p => p.2 = q) =
          (frequencies.filter (fun p => min_freq ≤ p.2)).filter (fun p => p.2 = q) :=
      List.filter_eq_self.mpr fun a ha => (List.mem_filter.mp ha).2
    have hsub3 :
        List.Sublist
          ((frequencies.filter (fun p => min_freq ≤ p.2)).filter (fun p => p.2 = q))
          (((frequencies.filter (fun p => min_freq ≤ p.2)).mergeSort
            freqDescLE).filter (fun p => p.2 = q)) := by
      have := hsub2.filter (fun p => p.2 = q)
      rwa [hid] at this
    have hlen :
        (((frequencies.filter (fun p => min_freq ≤ p.2)).mergeSort
            freqDescLE).filter (fun p => p.2 = q)).length =
          ((frequencies.filter (fun p => min_freq ≤ p.2)).filter
            (fun p => p.2 = q)).length :=
      (hperm.filter _).length_eq
    have hstable :
        ((frequencies.filter (fun p => min_freq ≤ p.2)).mergeSort
            freqDescLE).filter (fun p => p.2 = q) =
          (frequencies.filter (fun p => min_freq ≤ p.2)).filter (fun p => p.2 = q) :=
      (hsub3.eq_of_length hlen.symm).symm
    refine ⟨(((frequencies.filter (fun p => min_freq ≤ p.2)).mergeSort
      freqDescLE).drop max_words).filter (fun p => p.2 = q), ?_⟩
    rw [← hstable]
    show (((frequencies.filter (fun p => min_freq ≤ p.2)).mergeSort
        freqDescLE).take max_words).filter (fun p => p.2 = q) ++ _ = _
    rw [← List.filter_append, List.take_append_drop]

lemma has_tails_iff (word : String) :
    _has_tails word = true ↔ ∃ c ∈ word.toList, Char.toLower c ∈ TAILS := by
  unfold _has_tails
  rw [List.any_eq_true]
  constructor
  · rintro ⟨c, hc, hmem⟩
    obtain ⟨c0, hc0, rfl⟩ := List.mem_map.mp hc
    exact ⟨c0, hc0, List.elem_iff.mp hmem⟩
  · rintro ⟨c, hc, hmem⟩
    exact ⟨Char.toLower c, List.mem_map_of_mem _ hc, List.elem_iff.mpr hmem⟩

/-- C4 counterexample: the word `"G"` contains none of the five lowercase
descender characters, yet `_has_tails` reports true and the +20% height
inflation is applied (a height of 10 becomes 12), because the source
lowercases the word before testing. -/
theorem descender_lowercase_counterexample :
    _has_tails "G" = true ∧ descender_adjust "G" 10 = 12 ∧
    (∀ c ∈ "G".toList, c ∉ TAILS) := by
  refine ⟨by decide, ?_, by decide⟩
  have h : _has_tails "G" = true := by decide
  rw [descender_adjust, if_pos h]
  norm_num [pyInt]

/-- C4 (amended): the +20% height inflation is applied precisely when the
lowercased word contains one of `g, j, p, q, y` — that is, when the word
contains one of these letters in either case. -/
theorem descender_inflation_iff (word : String) (th : ℤ) :
    (descender_adjust word th = pyInt ((th : ℚ) + (th : ℚ) * (1/5)) ∧
      (∃ c ∈ word.toList, Char.toLower c ∈ TAILS)) ∨
    (descender_adjust word th = th ∧ ¬ ∃ c ∈ word.toList, Char.toLower c ∈ TAILS) := by
  cases h : _has_tails word
  · right
    refine ⟨by rw [descender_adjust, if_neg (by simp [h])], ?_⟩
    rw [← has_tails_iff, h]
    simp
  · left
    exact ⟨by rw [descender_adjust, if_pos h], (has_tails_iff word).mp h⟩

lemma pyIndex_zero {α : Type} (l : List α) (h : 0 < l.length) :
    pyIndex l 0 = .ok (l.get ⟨0, h⟩) := by
  simp [pyIndex, h]

/-- Spec-side clamp formula for the frequency-mode color bucket, written
from the spec's words: `ci = clamp(ceil(N*nf), 1, N) - 1`. -/
def specColorBucket (n : ℤ) (nf : ℚ) : ℤ :=
  min (max ⌈(n : ℚ) * nf⌉ 1) n - 1

/-- C5: in frequency color mode the selected index equals the spec's
reversed clamped-bucket formula `N - 1 - (clamp(ceil(N*nf), 1, N) - 1)`,
and a word with normalized frequency 1 receives the first palette entry. -/
theorem freq_color_matches_spec (colors : List String) (nf : ℚ)
    (hN : 1 ≤ colors.length) :
    freqColorPick colors nf =
      pyIndex colors ((colors.length : ℤ) - 1 - specColorBucket colors.length nf) ∧
    (nf = 1 → freqColorPick colors nf = Except.ok (colors.get ⟨0, hN⟩)) := by
  constructor
  · unfold freqColorPick specColorBucket
    show pyIndex colors ((colors.length : ℤ) - 1 -
        max 0 (min ⌈((colors.length : ℤ) : ℚ) * nf⌉ (colors.length : ℤ) - 1)) =
      pyIndex colors ((colors.length : ℤ) - 1 -
        (min (max ⌈((colors.length : ℤ) : ℚ) * nf⌉ 1) (colors.length : ℤ) - 1))
    congr 1
    have h1 : (1 : ℤ) ≤ (colors.length : ℤ) := by exact_mod_cast hN
    generalize ⌈((colors.length : ℤ) : ℚ) * nf⌉ = c
    omega
  · intro hnf
    subst hnf
    have h1 : (1 : ℤ) ≤ (colors.length : ℤ) := by exact_mod_cast hN
    have hci : (colors.length : ℤ) - 1 -
        max 0 (min ⌈((colors.length : ℤ) : ℚ) * 1⌉ (colors.length : ℤ) - 1) = 0 := by
      rw [mul_one, Int.ceil_intCast]; omega
    show pyIndex colors ((colors.length : ℤ) - 1 -
        max 0 (min ⌈((colors.length : ℤ) : ℚ) * 1⌉ (colors.length : ℤ) - 1)) =
      Except.ok (colors.get ⟨0, hN⟩)
    rw [hci]
    exact pyIndex_zero colors hN

/-- Witness for C5 on a concrete two-color palette. -/
theorem freq_color_matches_spec_witness :
    1 ≤ (["#111111", "#222222"] : List String).length ∧
    (freqColorPick ["#111111", "#222222"] 1 =
      pyIndex ["#111111", "#222222"]
        (((["#111111", "#222222"] : List String).length : ℤ) - 1 -
          specColorBucket (["#111111", "#222222"] : List String).length 1) ∧
    ((1:ℚ) = 1 → freqColorPick ["#111111", "#222222"] 1 =
      Except.ok ((["#111111", "#222222"] : List String).get ⟨0, by decide⟩))) :=
  ⟨by decide, freq_color_matches_spec ["#111111", "#222222"] 1 (by decide)⟩

/-- C6 counterexample: with `scale = (0, 1)` (max scale 0, min scale 1) and
run maximum frequency 2, the word with frequency 2 receives a strictly
smaller ScaleFactor than the word with frequency 1, refuting the claimed
monotonicity for arbitrary parameters. -/
theorem scale_monotone_counterexample :
    (1:ℚ) < 2 ∧
    cexOf (0, 1) (normedOf 2 2) < cexOf (0, 1) (normedOf 2 1) := by
  constructor
  · norm_num
  · norm_num [cexOf, normedOf]

/-- C6 (amended): for two words in the same run with frequencies
`f1 > f2`, provided the configured scale satisfies `minScale ≤ maxScale`
and the run's maximum frequency is positive, the ScaleFactor
`(maxScale - minScale) * (f / max_freq) + minScale` computed for `f1` is at
least the one computed for `f2`. -/
theorem scale_monotone (maxS minS max_freq f1 f2 : ℚ)
    (hs : minS ≤ maxS) (hmf : 0 < max_freq) (hf : f2 < f1) :
    cexOf (maxS, minS) (normedOf max_freq f2) ≤ cexOf (maxS, minS) (normedOf max_freq f1) := by
  unfold cexOf normedOf
  simp only []
  have hdiv : f2 / max_freq ≤ f1 / max_freq := by
    rw [div_le_div_iff_of_pos_right hmf]
    exact le_of_lt hf
  have hmul : (maxS - minS) * (f2 / max_freq) ≤ (maxS - minS) * (f1 / max_freq) :=
    mul_le_mul_of_nonneg_left hdiv (by linarith)
  linarith

lemma two_pi_pos : (0:ℚ) < 2 * PY_PI := by norm_num [PY_PI]

lemma spiralSearch_ne_none (o : Oracles) (ts rs wid ht : ℚ) (boxes : List Box) :
    ∀ (fuel : Nat) (r theta : ℚ),
      SQRT_HALF - r < (fuel : ℚ) * (rs * ts / (2 * PY_PI)) →
      spiralSearch o ts rs wid ht boxes r theta (fuel + 1) ≠ none := by
  intro fuel
  induction fuel with
  | zero =>
    intro r theta hr
    rw [spiralSearch]
    split
    · simp
    · split
      · simp
      · rename_i h2
        exfalso
        push_neg at h2
        push_cast at hr
        linarith
  | succ n ih =>
    intro r theta hr
    rw [spiralSearch]
    split
    · simp
    · split
      · simp
      · apply ih
        push_cast at hr ⊢
        linarith

lemma spiralSearch_no_room (o : Oracles) (ts rs wid ht : ℚ) (boxes : List Box)
    (hwid : 1 ≤ wid) :
    ∀ (fuel : Nat) (r theta x1 y1 : ℚ) (b : Box),
      spiralSearch o ts rs wid ht boxes r theta fuel ≠ some (some (x1, y1, b)) := by
  intro fuel
  induction fuel with
  | zero =>
    intro r theta x1 y1 b
    simp [spiralSearch]
  | succ n ih =>
    intro r theta x1 y1 b
    rw [spiralSearch]
    split
    · rename_i hcond
      exfalso
      have h1 := hcond.1
      have h3 := hcond.2.2.1
      linarith
    · split
      · simp
      · exact ih _ _ _ _ _

/-- C7: for every word, when `theta_step` and `r_step` are positive the
spiral search terminates within a fuel bound that depends only on the step
sizes: beyond that bound the model never reports fuel exhaustion, so the
source loop runs a bounded number of iterations; moreover when the word's
normalized width is at least the canvas width (`wid ≥ 1`) the search ends
with the word dropped (`some none`) — no placement and no error. -/
theorem spiral_search_terminates (o : Oracles) (theta_step r_step wid ht : ℚ)
    (boxes : List Box) (theta0 : ℚ)
    (hts : 0 < theta_step) (hrs : 0 < r_step) :
    ∃ N : Nat, ∀ fuel : Nat, N ≤ fuel →
      spiralSearch o theta_step r_step wid ht boxes 0 theta0 fuel ≠ none ∧
      (1 ≤ wid →
        spiralSearch o theta_step r_step wid ht boxes 0 theta0 fuel = some none) := by
  have hd : 0 < r_step * theta_step / (2 * PY_PI) :=
    div_pos (mul_pos hrs hts) two_pi_pos
  refine ⟨(⌈SQRT_HALF / (r_step * theta_step / (2 * PY_PI))⌉).toNat + 2, ?_⟩
  intro fuel hfuel
  obtain ⟨m, rfl⟩ : ∃ m, fuel = m + 1 := ⟨fuel - 1, by omega⟩
  have hm : (⌈SQRT_HALF / (r_step * theta_step / (2 * PY_PI))⌉).toNat + 1 ≤ m := by omega
  have hle : SQRT_HALF / (r_step * theta_step / (2 * PY_PI)) < (m : ℚ) := by
    have h1 := Int.le_ceil (SQRT_HALF / (r_step * theta_step / (2 * PY_PI)))
    have h2 : ((⌈SQRT_HALF / (r_step * theta_step / (2 * PY_PI))⌉ : ℤ) : ℚ) ≤
        ((⌈SQRT_HALF / (r_step * theta_step / (2 * PY_PI))⌉.toNat : Nat) : ℚ) := by
      exact_mod_cast Int.self_le_toNat _
    have h3 : ((⌈SQRT_HALF / (r_step * theta_step / (2 * PY_PI))⌉.toNat + 1 : Nat) : ℚ) ≤
        (m : ℚ) := by exact_mod_cast hm
    push_cast at h3
    linarith
  have hlt : SQRT_HALF - 0 < (m : ℚ) * (r_step * theta_step / (2 * PY_PI)) := by
    have hmul := mul_lt_mul_of_pos_right hle hd
    rw [div_mul_cancel₀ _ (ne_of_gt hd)] at hmul
    linarith
  have hne := spiralSearch_ne_none o theta_step r_step wid ht boxes m 0 theta0 hlt
  refine ⟨hne, ?_⟩
  intro hwid
  cases hres : spiralSearch o theta_step r_step wid ht boxes 0 theta0 (m + 1) with
  | none => exact absurd hres hne
  | some r0 =>
    cases r0 with
    | none => rfl
    | some trip =>
      obtain ⟨x1, y1, b⟩ := trip
      exact absurd hres (spiralSearch_no_room o theta_step r_step wid ht boxes hwid _ _ _ _ _ _)

/-- Witness for C7 at concrete steps and an oversized word. -/
theorem spiral_search_terminates_witness :
    ((0:ℚ) < 1/10 ∧ (0:ℚ) < 1/20) ∧
    (∃ N : Nat, ∀ fuel : Nat, N ≤ fuel →
      spiralSearch oracleW (1/10) (1/20) 2 2 [] 0 0 fuel ≠ none ∧
      ((1:ℚ) ≤ 2 →
        spiralSearch oracleW (1/10) (1/20) 2 2 [] 0 0 fuel = some none)) :=
  ⟨⟨by norm_num, by norm_num⟩,
   spiral_search_terminates oracleW (1/10) (1/20) 2 2 [] 0 (by norm_num) (by norm_num)⟩

lemma lookup_eq_none_of_not_mem {β : Type} (l : List (String × β)) (s : String)
    (h : s ∉ l.map Prod.fst) : l.lookup s = none := by
  induction l with
  | nil => rfl
  | cons p rest ih =>
    obtain ⟨k, v⟩ := p
    simp only [List.map_cons, List.mem_cons] at h
    push_neg at h
    rw [List.lookup, show (s == k) = false from beq_eq_false_iff_ne.mpr h.1]
    exact ih h.2

/-- C10: a palette name that is not one of the built-in names silently
resolves to the fixed 6-color fallback list (no error is possible — the
function is total); a palette given as a list is returned unchanged; and a
known palette name has its 2 lightest colors dropped exactly when it is one
of the sequential palettes. -/
theorem get_palette_colors_spec (s : String) (l : List String)
    (hs : s ∉ BREWER_PALETTES.map Prod.fst) :
    _get_palette_colors (.name s) 2 = fallbackColors ∧
    fallbackColors.length = 6 ∧
    _get_palette_colors (.list l) 2 = l ∧
    (∀ nm cs, BREWER_PALETTES.lookup nm = some cs →
      _get_palette_colors (.name nm) 2 =
        (if nm ∈ sequentialPalettes then cs.drop 2 else cs)) := by
  refine ⟨?_, by decide, rfl, ?_⟩
  · show (match BREWER_PALETTES.lookup s with
      | some colors =>
        if sequentialPalettes.contains s && decide ((0:ℤ) < 2) then
          colors.drop (Int.toNat 2)
        else colors
      | none => fallbackColors) = fallbackColors
    rw [lookup_eq_none_of_not_mem _ _ hs]
  · intro nm cs hcs
    show (match BREWER_PALETTES.lookup nm with
      | some colors =>
        if sequentialPalettes.contains nm && decide ((0:ℤ) < 2) then
          colors.drop (Int.toNat 2)
        else colors
      | none => fallbackColors) = if nm ∈ sequentialPalettes then cs.drop 2 else cs
    rw [hcs]
    by_cases hseq : nm ∈ sequentialPalettes
    · have hc : sequentialPalettes.contains nm = true := List.elem_iff.mpr hseq
      simp [hc, hseq]
    · have hc : sequentialPalettes.contains nm = false := by
        rw [List.contains_eq_any_beq]
        simp only [List.any_eq_false]
        intro x hx
        simp only [beq_iff_eq]
        intro heq
        exact hseq (heq ▸ hx)
      simp [hc, hseq]

/-- Witness for C10 at the unknown palette name `"Viridis"`. -/
theorem get_palette_colors_spec_witness :
    ("Viridis" ∉ BREWER_PALETTES.map Prod.fst) ∧
    (_get_palette_colors (.name "Viridis") 2 = fallbackColors ∧
     fallbackColors.length = 6 ∧
     _get_palette_colors (.list ["#000000"]) 2 = ["#000000"] ∧
     (∀ nm cs, BREWER_PALETTES.lookup nm = some cs →
       _get_palette_colors (.name nm) 2 =
         (if nm ∈ sequentialPalettes then cs.drop 2 else cs))) :=
  ⟨by decide, get_palette_colors_spec "Viridis" ["#000000"] (by decide)⟩

/-- Configuration with the minimum-frequency filter at 0 (all other
parameters ordinary). -/
def cfg8 : Config :=
  ⟨100, 100, (4, 1/2), 0, 200, false, false, 0, .list ["#111111"], 16, 1/10, 1/20, 2⟩

/-- C8 (code bug): with the minimum-frequency filter at 0 and a single
entry of frequency 0, the entry survives filtering but the layout raises
`ZeroDivisionError` while computing `f / max_freq`, instead of yielding
zero placements without error. -/
theorem zero_frequency_zero_division :
    wordcloudModel cfg8 oracleW measureW id [("a", 0)] 5 = .error .zeroDivision := by
  norm_num [wordcloudModel, cfg8, filterSortWords, pyMaxList, _get_palette_colors,
    List.take_of_length_le]

/-- Configuration with max scale 0 (degenerate scale), otherwise ordinary. -/
def cfg9a : Config :=
  ⟨100, 100, (0, 1), 1, 200, false, false, 0, .list ["#111111"], 16, 1/10, 1/20, 2⟩

/-- Configuration with zero canvas width, otherwise ordinary. -/
def cfg9b : Config :=
  ⟨0, 100, (4, 1/2), 1, 200, false, false, 0, .list ["#111111"], 16, 1/10, 1/20, 2⟩

/-- Configuration with an empty palette list, otherwise ordinary. -/
def cfg9c : Config :=
  ⟨100, 100, (4, 1/2), 1, 200, false, false, 0, .list [], 16, 1/10, 1/20, 2⟩

/-- C9 counterexample: with max scale 0 — a degenerate configuration — the
run does not fail fast with a configuration error: it completes without any
error and places its word. -/
theorem no_fail_fast_counterexample :
    isOkB (wordcloudModel cfg9a oracleW measureW id [("a", 1)] 5) = true ∧
    placedCount (wordcloudModel cfg9a oracleW measureW id [("a", 1)] 5) = 1 := by
  have hta : _has_tails "a" = false := by decide
  constructor <;>
    norm_num [wordcloudModel, cfg9a, filterSortWords, pyMaxList, _get_palette_colors,
      placeLoop, placeWord, spiralSearch, _is_overlap, freqColorPick, pyIndex, pyInt,
      descender_adjust, hta, oracleW, measureW, isOkB, placedCount,
      List.take_of_length_le]

/-- C9 (amended): `wordcloud` performs no configuration validation and
never fails fast: with max scale ≤ 0 the layout proceeds and places words
without error; a zero canvas width raises `ZeroDivisionError` during the
first word's placement computation; an empty palette raises `IndexError`
at color lookup after the first word has already been placed — in every
case inside the placement phase, never at a prior validation boundary. -/
theorem no_config_validation :
    (isOkB (wordcloudModel cfg9a oracleW measureW id [("a", 1)] 5) = true ∧
      placedCount (wordcloudModel cfg9a oracleW measureW id [("a", 1)] 5) = 1) ∧
    wordcloudModel cfg9b oracleW measureW id [("a", 1)] 5 = .error .zeroDivision ∧
    wordcloudModel cfg9c oracleW measureW id [("a", 1)] 5 = .error .indexError := by
  have hta : _has_tails "a" = false := by decide
  refine ⟨⟨?_, ?_⟩, ?_, ?_⟩ <;>
    norm_num [wordcloudModel, cfg9a, cfg9b, cfg9c, filterSortWords, pyMaxList,
      _get_palette_colors, placeLoop, placeWord, spiralSearch, _is_overlap, freqColorPick,
      pyIndex, pyInt, descender_adjust, hta, oracleW, measureW, isOkB, placedCount,
      List.take_of_length_le]

/-- Witness for the amended C4 statement at the word `"G"`. -/
theorem descender_inflation_iff_witness :
    (descender_adjust "G" 10 = pyInt ((10 : ℚ) + (10 : ℚ) * (1/5)) ∧
      (∃ c ∈ "G".toList, Char.toLower c ∈ TAILS)) ∨
    (descender_adjust "G" 10 = 10 ∧ ¬ ∃ c ∈ "G".toList, Char.toLower c ∈ TAILS) :=
  descender_inflation_iff "G" 10

/-- Witness for the amended C6 statement at scale `(4, 1/2)` and
frequencies 2 and 1 with run maximum 2. -/
theorem scale_monotone_witness :
    ((1:ℚ)/2 ≤ 4 ∧ (0:ℚ) < 2 ∧ (1:ℚ) < 2) ∧
    cexOf (4, 1/2) (normedOf 2 1) ≤ cexOf (4, 1/2) (normedOf 2 2) :=
  ⟨⟨by norm_num, by norm_num, by norm_num⟩,
   scale_monotone 4 (1/2) 2 2 1 (by norm_num) (by norm_num) (by norm_num)⟩
